import Mathlib

/-
Verification of the growable-record-store / flat-file persistence core of
the repository, as implemented in src/c/library_improved_commented.c
(book and borrow-record CSV storage, atomic save) and src/notebook.c
(line-based document store).

Strings from the C sources are modelled as `List Char` (NUL-free C strings).
C `int` fields are modelled as `Int`; the operations proved about never
overflow at the scale fixed by the programs, so no wrap-around modelling
is needed.
-/

/-- Model of `chomp` (library_improved_commented.c:141): strip all trailing
LF and CR characters. -/
def chomp (s : List Char) : List Char :=
  (s.reverse.dropWhile (fun c => c == '\n' || c == '\r')).reverse

/-- The white-space test of C `atoi` (isspace). -/
def isSpaceC (c : Char) : Bool :=
  c == ' ' || c == '\t' || c == '\n' || c == '\r' || c == '\x0b' || c == '\x0c'

/-- Digit-accumulating loop of C `atoi`: consume leading decimal digits. -/
def atoiLoop : List Char → Nat → Nat
  | [], acc => acc
  | c :: t, acc =>
    if c.isDigit then atoiLoop t (acc * 10 + (c.toNat - '0'.toNat)) else acc

/-- Model of C `atoi`: skip leading white space, optional sign, then leading
digits (0 if none).  Overflow is not modelled; the verified properties only
evaluate it on small values. -/
def atoi (s : List Char) : Int :=
  match s.dropWhile isSpaceC with
  | '-' :: t => - (atoiLoop t 0 : Int)
  | '+' :: t => (atoiLoop t 0 : Int)
  | t => (atoiLoop t 0 : Int)

/-- Model of the `fgets` line loop: split file content at LF; the LF is
consumed; a final piece is produced only if non-empty (at EOF with no
characters read, `fgets` returns NULL). -/
def splitLinesAux : List Char → List Char → List (List Char)
  | [], acc => if acc.isEmpty then [] else [acc.reverse]
  | c :: t, acc =>
    if c = '\n' then acc.reverse :: splitLinesAux t [] else splitLinesAux t (c :: acc)

/-- Split file content into the lines successive `fgets` calls deliver
(each still carrying any CR; the LF removed). -/
def splitLines (s : List Char) : List (List Char) := splitLinesAux s []

/-- Worker of `split_csv_fields` (library_improved_commented.c:203-223).
The fuel argument is `max_fields - i`: the C loop runs while the cursor is
not at the terminating NUL and `i < max_fields`.  Each field is the run of
characters up to the next comma or the end of the line, truncated to
`MAX_FIELD - 1 = 255` characters; a comma, when present, is then skipped.
After the final comma the loop condition `*p` is tested first, so a
trailing empty field is never produced. -/
def splitCsvAux : Nat → List Char → List (List Char)
  | 0, _ => []
  | _, [] => []
  | fuel + 1, p =>
    let field := p.takeWhile (fun c => c != ',')
    let rest := p.dropWhile (fun c => c != ',')
    -- rest is empty or starts with the comma; `if (*p == ',') p++` is its tail
    field.take 255 :: splitCsvAux fuel rest.tail

/-- Model of `split_csv_fields`: split a line into at most `maxFields`
comma-separated fields, each truncated to 255 characters. -/
def split_csv_fields (line : List Char) (maxFields : Nat) : List (List Char) :=
  splitCsvAux maxFields line

/-- The same splitter with the `MAX_FIELD` truncation removed: its fields
are the untruncated fields of the input line.  It exists only to state the
truncation property C10 (each parsed field is a 255-character prefix of the
corresponding original field). -/
def splitCsvUntruncAux : Nat → List Char → List (List Char)
  | 0, _ => []
  | _, [] => []
  | fuel + 1, p =>
    let field := p.takeWhile (fun c => c != ',')
    let rest := p.dropWhile (fun c => c != ',')
    field :: splitCsvUntruncAux fuel rest.tail

/-- Untruncated variant of `split_csv_fields` (specification-side). -/
def split_csv_fields_untrunc (line : List Char) (maxFields : Nat) : List (List Char) :=
  splitCsvUntruncAux maxFields line

theorem splitCsvAux_eq_untrunc (fuel : Nat) :
    ∀ p : List Char, splitCsvAux fuel p = (splitCsvUntruncAux fuel p).map (fun f => f.take 255) := by
  induction fuel with
  | zero => intro p; simp [splitCsvAux, splitCsvUntruncAux]
  | succ n ih =>
    intro p
    cases p with
    | nil => simp [splitCsvAux, splitCsvUntruncAux]
    | cons c t =>
      simp only [splitCsvAux, splitCsvUntruncAux, List.map_cons]
      exact congrArg _ (ih _)

/-- C10: every field produced by `split_csv_fields` is the 255-character
prefix (`MAX_FIELD - 1 = 255`) of the corresponding untruncated field of
the input line, in order: longer fields are silently truncated to their
255-character prefix and at most 255 characters are copied per field. -/
theorem split_fields_truncate_255 (line : List Char) (maxFields : Nat) :
    split_csv_fields line maxFields
      = (split_csv_fields_untrunc line maxFields).map (fun f => f.take 255) :=
  splitCsvAux_eq_untrunc maxFields line

/-- Book record (library_improved_commented.c:46-52).  `title`/`author`
hold at most 255 characters in the C struct. -/
structure Book where
  id : Int
  title : List Char
  author : List Char
  total : Int
  available : Int
deriving DecidableEq

/-- Borrow record (library_improved_commented.c:55-60).  The dates hold at
most 15 characters; an empty `return_date` marks an open (unreturned)
borrow, as documented at the top of the C file. -/
structure BorrowRecord where
  borrower_id : Int
  book_id : Int
  borrow_date : List Char
  return_date : List Char
deriving DecidableEq

/-- `%d` formatting of snprintf for a C int. -/
def intToStr (i : Int) : List Char :=
  if i < 0 then '-' :: Nat.toDigits 10 i.natAbs else Nat.toDigits 10 i.toNat

/-- One line written by `save_records` (library_improved_commented.c:377):
`"%d,%d,%s,%s\n"`; the C ternary `r->return_date[0] ? r->return_date : ""`
is the identity on the stored string. -/
def record_line (r : BorrowRecord) : List Char :=
  intToStr r.borrower_id ++ (',' :: intToStr r.book_id)
    ++ (',' :: r.borrow_date) ++ (',' :: r.return_date) ++ ['\n']

/-- Model of `save_records` (library_improved_commented.c:369-389): the
in-memory buffer handed to `atomic_save_text`, one formatted line per
record in order. -/
def save_records : List BorrowRecord → List Char
  | [] => []
  | r :: t => record_line r ++ save_records t

/-- Parse and validate one line of borrowers.csv, as the loop body of
`load_records` (library_improved_commented.c:341-360) does: chomp, skip
empty lines, split into at most 8 fields, require at least 4 fields, copy
the dates through `safe_strncpy` into 16-byte buffers (15-character
truncation), and admit the record only if `borrower_id > 0`,
`book_id > 0` and the borrow date is non-empty. -/
def recordFromLine (line : List Char) : Option BorrowRecord :=
  let l := chomp line
  if l.isEmpty then none
  else
    match split_csv_fields l 8 with
    | f0 :: f1 :: f2 :: f3 :: _ =>
      let r : BorrowRecord := ⟨atoi f0, atoi f1, f2.take 15, f3.take 15⟩
      if 0 < r.borrower_id ∧ 0 < r.book_id ∧ ¬ r.borrow_date.isEmpty then some r else none
    | _ => none

/-- The `while (fgets(...))` loop of `load_records`: admitted records are
appended in file order, other lines are skipped. -/
def load_records_lines : List (List Char) → List BorrowRecord
  | [] => []
  | l :: t =>
    match recordFromLine l with
    | some r => r :: load_records_lines t
    | none => load_records_lines t

/-- Model of `load_records` (library_improved_commented.c:337-364) applied
to the content of borrowers.csv. -/
def load_records (content : List Char) : List BorrowRecord :=
  load_records_lines (splitLines content)

/-- A borrow record whose fields are free of the CSV delimiter and of line
terminators (the hypothesis of the round-trip property C1). -/
def record_csv_clean (r : BorrowRecord) : Prop :=
  (∀ c ∈ r.borrow_date, c ≠ ',' ∧ c ≠ '\n' ∧ c ≠ '\r')
    ∧ (∀ c ∈ r.return_date, c ≠ ',' ∧ c ≠ '\n' ∧ c ≠ '\r')

instance (r : BorrowRecord) : Decidable (record_csv_clean r) := by
  unfold record_csv_clean; infer_instance

/-- C1 (refuted on the code): the open borrow
`{borrower_id 1, book_id 2, borrow_date "2024-01-01", return_date ""}`
has delimiter- and newline-free fields, yet serializing the one-record
store with `save_records` and reloading with `load_records` yields the
empty store: the line ends in a trailing empty field, `split_csv_fields`
produces only 3 fields for it, and `load_records` skips lines with fewer
than 4 fields, so every open borrow is dropped. -/
theorem open_borrow_lost_on_roundtrip :
    record_csv_clean ⟨1, 2, "2024-01-01".toList, []⟩
      ∧ save_records [⟨1, 2, "2024-01-01".toList, []⟩] = "1,2,2024-01-01,\n".toList
      ∧ load_records (save_records [⟨1, 2, "2024-01-01".toList, []⟩]) = [] := by
  refine ⟨by decide, by decide, by decide⟩

/-- Parse and validate one line of books.csv, as the loop body of
`load_books` (library_improved_commented.c:281-302) does: chomp, skip empty
lines, split into at most 8 fields, require at least 5 fields, copy title
and author through `safe_strncpy` (255-character truncation), and admit the
record only if `id > 0`, `total >= 0` and `0 <= available <= total`. -/
def bookFromLine (line : List Char) : Option Book :=
  let l := chomp line
  if l.isEmpty then none
  else
    match split_csv_fields l 8 with
    | f0 :: f1 :: f2 :: f3 :: f4 :: _ =>
      let b : Book := ⟨atoi f0, f1.take 255, f2.take 255, atoi f3, atoi f4⟩
      if 0 < b.id ∧ 0 ≤ b.total ∧ 0 ≤ b.available ∧ b.available ≤ b.total then some b else none
    | _ => none

/-- The `while (fgets(...))` loop of `load_books`
(library_improved_commented.c:274-306): admitted books are appended in
file order, other lines are skipped and never abort the load. -/
def load_books_lines : List (List Char) → List Book
  | [] => []
  | l :: t =>
    match bookFromLine l with
    | some b => b :: load_books_lines t
    | none => load_books_lines t

/-- C6: loading any list of lines never aborts and yields exactly the
records of the lines that have enough fields and pass validation, in
order: the store holds `N` records where `N` counts the lines admitted by
`bookFromLine`, and the empty, short or invalid lines are silently
skipped. -/
theorem load_books_skips_malformed (lines : List (List Char)) :
    load_books_lines lines = lines.filterMap bookFromLine
      ∧ (load_books_lines lines).length = lines.countP (fun l => (bookFromLine l).isSome) := by
  constructor
  · induction lines with
    | nil => simp [load_books_lines]
    | cons l t ih =>
      cases h : bookFromLine l with
      | none => simp [load_books_lines, h, List.filterMap_cons, ih]
      | some b => simp [load_books_lines, h, List.filterMap_cons, ih]
  · induction lines with
    | nil => simp [load_books_lines]
    | cons l t ih =>
      cases h : bookFromLine l with
      | none => simp [load_books_lines, h, List.countP_cons, ih]
      | some b => simp [load_books_lines, h, List.countP_cons, ih]

/-- The documented invariant of a book record: `0 <= available <= total`
(library_improved_commented.c:45). -/
def book_ok (b : Book) : Prop := 0 ≤ b.available ∧ b.available ≤ b.total

instance (b : Book) : Decidable (book_ok b) := by
  unfold book_ok; infer_instance

/-- Model of `find_book_by_id` (library_improved_commented.c:404-410):
first record with the given id, or none. -/
def find_book_by_id : List Book → Int → Option Book
  | [], _ => none
  | b :: t, i => if b.id = i then some b else find_book_by_id t i

/-- In-place mutation through the pointer returned by `find_book_by_id`:
apply `f` to the first record with the given id, keep the rest. -/
def update_first_book : List Book → Int → (Book → Book) → List Book
  | [], _, _ => []
  | b :: t, i, f => if b.id = i then f b :: t else b :: update_first_book t i f

/-- Model of `borrow_book` (library_improved_commented.c:522-553) after the
two ids have been read: reject non-positive ids, an unknown book, or a book
with no available copy; otherwise append an open borrow record stamped with
the injected current date (truncated to the 16-byte buffer) and decrement
the book's `available`.  `none` models the early-return paths. -/
def borrow_book (books : List Book) (records : List BorrowRecord)
    (borrowerId bookId : Int) (date : List Char) :
    Option (List Book × List BorrowRecord) :=
  if borrowerId ≤ 0 then none
  else if bookId ≤ 0 then none
  else
    match find_book_by_id books bookId with
    | none => none
    | some b =>
      if b.available ≤ 0 then none
      else
        some (update_first_book books bookId (fun x => ⟨x.id, x.title, x.author, x.total, x.available - 1⟩),
              records ++ [⟨borrowerId, bookId, date.take 15, []⟩])

/-- The backwards scan of `return_book` (library_improved_commented.c:574):
index of the last record with matching borrower id, book id and empty
return date. -/
def last_open_index : List BorrowRecord → Int → Int → Option Nat
  | [], _, _ => none
  | r :: t, bid, kid =>
    match last_open_index t bid kid with
    | some i => some (i + 1)
    | none =>
      if r.borrower_id = bid ∧ r.book_id = kid ∧ r.return_date.isEmpty then some 0 else none

/-- Stamp the return date of the record at the given index. -/
def set_return_at : List BorrowRecord → Nat → List Char → List BorrowRecord
  | [], _, _ => []
  | r :: t, 0, d => ⟨r.borrower_id, r.book_id, r.borrow_date, d⟩ :: t
  | r :: t, n + 1, d => r :: set_return_at t n d

/-- Model of `return_book` (library_improved_commented.c:559-588) after the
two ids have been read: reject non-positive ids; find the most recent open
matching record; stamp its return date with the injected current date; and
increment the book's `available` only when `available < total`. -/
def return_book (books : List Book) (records : List BorrowRecord)
    (borrowerId bookId : Int) (date : List Char) :
    Option (List Book × List BorrowRecord) :=
  if borrowerId ≤ 0 then none
  else if bookId ≤ 0 then none
  else
    match last_open_index records borrowerId bookId with
    | none => none
    | some i =>
      let books2 :=
        match find_book_by_id books bookId with
        | none => books
        | some b =>
          if b.available < b.total then
            update_first_book books bookId (fun x => ⟨x.id, x.title, x.author, x.total, x.available + 1⟩)
          else books
      some (books2, set_return_at records i (date.take 15))

theorem mem_update_first_book (l : List Book) (i : Int) (f : Book → Book) :
    ∀ b ∈ update_first_book l i f,
      b ∈ l ∨ ∃ b0, find_book_by_id l i = some b0 ∧ b = f b0 := by
  induction l with
  | nil => intro b hb; simp [update_first_book] at hb
  | cons h t ih =>
    intro b hb
    by_cases hid : h.id = i
    · simp only [update_first_book, if_pos hid, List.mem_cons] at hb
      rcases hb with hb | hb
      · exact Or.inr ⟨h, by simp [find_book_by_id, hid], hb⟩
      · exact Or.inl (List.mem_cons_of_mem _ hb)
    · simp only [update_first_book, if_neg hid, List.mem_cons] at hb
      rcases hb with hb | hb
      · exact Or.inl (hb ▸ List.mem_cons_self _ _)
      · rcases ih b hb with h1 | ⟨b0, hf, hb0⟩
        · exact Or.inl (List.mem_cons_of_mem _ h1)
        · exact Or.inr ⟨b0, by simp [find_book_by_id, hid, hf], hb0⟩

theorem find_book_by_id_mem (l : List Book) (i : Int) :
    ∀ b, find_book_by_id l i = some b → b ∈ l := by
  induction l with
  | nil => intro b hb; simp [find_book_by_id] at hb
  | cons h t ih =>
    intro b hb
    by_cases hid : h.id = i
    · simp only [find_book_by_id, if_pos hid, Option.some.injEq] at hb
      exact hb ▸ List.mem_cons_self _ _
    · simp only [find_book_by_id, if_neg hid] at hb
      exact List.mem_cons_of_mem _ (ih b hb)

theorem bookFromLine_ok (line : List Char) (b : Book) :
    bookFromLine line = some b → book_ok b := by
  intro h
  simp only [bookFromLine] at h
  split at h
  · exact absurd h (by simp)
  · split at h
    · split at h
      · rename_i hcond
        cases h
        exact ⟨hcond.2.2.1, hcond.2.2.2⟩
      · exact absurd h (by simp)
    · exact absurd h (by simp)

/-- C9: every mutation of the book store keeps `0 <= available <= total`
for every book: `load_books` admits only records already satisfying the
bound, `borrow_book` decrements `available` only behind its
`available > 0` check, and `return_book` increments `available` only
behind its `available < total` check. -/
theorem available_bounds_preserved :
    (∀ (lines : List (List Char)), ∀ b ∈ load_books_lines lines, book_ok b)
    ∧ (∀ (books : List Book) (records : List BorrowRecord) (bid kid : Int)
         (date : List Char) (out : List Book × List BorrowRecord),
         (∀ b ∈ books, book_ok b) → borrow_book books records bid kid date = some out →
         ∀ b ∈ out.1, book_ok b)
    ∧ (∀ (books : List Book) (records : List BorrowRecord) (bid kid : Int)
         (date : List Char) (out : List Book × List BorrowRecord),
         (∀ b ∈ books, book_ok b) → return_book books records bid kid date = some out →
         ∀ b ∈ out.1, book_ok b) := by
  refine ⟨?_, ?_, ?_⟩
  · intro lines
    induction lines with
    | nil => intro b hb; simp [load_books_lines] at hb
    | cons l t ih =>
      intro b hb
      cases h : bookFromLine l with
      | none =>
        simp only [load_books_lines, h] at hb
        exact ih b hb
      | some r =>
        simp only [load_books_lines, h, List.mem_cons] at hb
        rcases hb with hb | hb
        · exact hb ▸ bookFromLine_ok l r h
        · exact ih b hb
  · intro books records bid kid date out hok heq b hb
    by_cases h1 : bid ≤ 0
    · simp [borrow_book, h1] at heq
    by_cases h2 : kid ≤ 0
    · simp [borrow_book, h1, h2] at heq
    cases hf : find_book_by_id books kid with
    | none => simp [borrow_book, h1, h2, hf] at heq
    | some b0 =>
      by_cases h3 : b0.available ≤ 0
      · simp [borrow_book, h1, h2, hf, h3] at heq
      · simp only [borrow_book, if_neg h1, if_neg h2, hf, if_neg h3, Option.some.injEq] at heq
        rw [← heq] at hb
        simp only at hb
        rcases mem_update_first_book books kid _ b hb with hmem | ⟨b1, hfind, hbf⟩
        · exact hok b hmem
        · rw [hf] at hfind
          injection hfind with hfind
          subst hfind
          have hb0 : book_ok b0 := hok b0 (find_book_by_id_mem books kid b0 hf)
          subst hbf
          unfold book_ok at hb0 ⊢
          simp only
          omega
  · intro books records bid kid date out hok heq b hb
    by_cases h1 : bid ≤ 0
    · simp [return_book, h1] at heq
    by_cases h2 : kid ≤ 0
    · simp [return_book, h1, h2] at heq
    cases hli : last_open_index records bid kid with
    | none => simp [return_book, h1, h2, hli] at heq
    | some i =>
      cases hf : find_book_by_id books kid with
      | none =>
        simp only [return_book, if_neg h1, if_neg h2, hli, hf, Option.some.injEq] at heq
        rw [← heq] at hb
        simp only at hb
        exact hok b hb
      | some b0 =>
        by_cases h3 : b0.available < b0.total
        · simp only [return_book, if_neg h1, if_neg h2, hli, hf, if_pos h3,
            Option.some.injEq] at heq
          rw [← heq] at hb
          simp only at hb
          rcases mem_update_first_book books kid _ b hb with hmem | ⟨b1, hfind, hbf⟩
          · exact hok b hmem
          · rw [hf] at hfind
            injection hfind with hfind
            subst hfind
            have hb0 : book_ok b0 := hok b0 (find_book_by_id_mem books kid b0 hf)
            subst hbf
            unfold book_ok at hb0 ⊢
            simp only
            omega
        · simp only [return_book, if_neg h1, if_neg h2, hli, hf, if_neg h3,
            Option.some.injEq] at heq
          rw [← heq] at hb
          simp only at hb
          exact hok b hb

/-- Witness for C9: a concrete borrow followed by a concrete return, with
the hypotheses of `available_bounds_preserved` discharged by computation. -/
theorem available_bounds_witness :
    borrow_book [⟨1, "t".toList, "a".toList, 5, 5⟩] [] 7 1 "2024-05-06".toList
        = some ([⟨1, "t".toList, "a".toList, 5, 4⟩], [⟨7, 1, "2024-05-06".toList, []⟩])
    ∧ book_ok ⟨1, "t".toList, "a".toList, 5, 4⟩
    ∧ return_book [⟨1, "t".toList, "a".toList, 5, 4⟩] [⟨7, 1, "2024-05-06".toList, []⟩]
          7 1 "2024-05-07".toList
        = some ([⟨1, "t".toList, "a".toList, 5, 5⟩],
                [⟨7, 1, "2024-05-06".toList, "2024-05-07".toList⟩])
    ∧ book_ok ⟨1, "t".toList, "a".toList, 5, 5⟩ :=
  ⟨by decide,
   available_bounds_preserved.2.1 [⟨1, "t".toList, "a".toList, 5, 5⟩] [] 7 1
     "2024-05-06".toList
     ([⟨1, "t".toList, "a".toList, 5, 4⟩], [⟨7, 1, "2024-05-06".toList, []⟩])
     (by decide) (by decide) ⟨1, "t".toList, "a".toList, 5, 4⟩ (by decide),
   by decide,
   available_bounds_preserved.2.2 [⟨1, "t".toList, "a".toList, 5, 4⟩]
     [⟨7, 1, "2024-05-06".toList, []⟩] 7 1 "2024-05-07".toList
     ([⟨1, "t".toList, "a".toList, 5, 5⟩],
      [⟨7, 1, "2024-05-06".toList, "2024-05-07".toList⟩])
     (by decide) (by decide) ⟨1, "t".toList, "a".toList, 5, 5⟩ (by decide)⟩

/-- The two files `atomic_save_text` touches: the content visible at the
target path and at the temporary path (`filename TMP_SUFFIX`); `none`
means the path has no file. -/
structure FS where
  target : Option (List Char)
  temp : Option (List Char)
deriving DecidableEq

/-- The stage of `atomic_save_text` made to fail, or `ok` for a run where
every C library call succeeds. -/
inductive SaveStage where
  | ok
  | atOpen
  | atWrite
  | atClose
  | atRename
deriving DecidableEq

/-- Outcome model of `atomic_save_text`
(library_improved_commented.c:231-266) under failure injection, starting
from the file system `fs` (the function is called with no stale temporary
file).  The C control flow per stage:
`fopen` failure returns 0 with nothing touched; `fwrite` or `fclose`
failure removes the temporary file and returns 0 with the target
untouched; after a successful close the code executes `remove(filename)`
and then `rename`, so a `rename` failure (whose error branch also calls
`remove(tmpname)`) leaves neither a target nor a temporary file; on
success the target holds the new content and the temporary name is gone. -/
def atomic_save_text (fs : FS) (content : List Char) (fail : SaveStage) : Bool × FS :=
  match fail with
  | .atOpen => (false, fs)
  | .atWrite => (false, ⟨fs.target, none⟩)
  | .atClose => (false, ⟨fs.target, none⟩)
  | .atRename => (false, ⟨none, none⟩)
  | .ok => (true, ⟨some content, none⟩)

/-- The file-system states an external observer can see during a fully
successful `atomic_save_text` run, in program order: initial state, after
`fopen(tmpname, "w")` (which creates/truncates the temporary file), after
`fwrite`, after `fclose`, after `remove(filename)`, and after `rename`. -/
def atomicSaveTraceOk (tgt : Option (List Char)) (content : List Char) : List FS :=
  [⟨tgt, none⟩,
   ⟨tgt, some []⟩,
   ⟨tgt, some content⟩,
   ⟨tgt, some content⟩,
   ⟨none, some content⟩,
   ⟨some content, none⟩]

/-- C2 is refuted on the code: in a successful save of `"new"` over an
existing target holding `"old"`, the observable trace contains a state in
which the target path has no file at all — the window between
`remove(filename)` and `rename` at library_improved_commented.c:259-260.
The claim asserts the target always holds the old or the new complete
content, so it fails at this concrete input. -/
theorem save_window_target_absent :
    ∃ s ∈ atomicSaveTraceOk (some "old".toList) "new".toList,
      s.target = none ∧ s.target ≠ some "old".toList ∧ s.target ≠ some "new".toList := by
  decide

/-- The file-system states an external observer can see during any
execution of `atomic_save_text`, in program order, one trace per failure
stage.  `written` is the number of bytes the failing `fwrite` managed to
write before returning short (the partially written temporary file of that
run); no call ever writes to the target path except `remove(filename)`
and `rename`.  Per stage:
an `fopen` failure executes no file operation; an `fwrite` failure is
followed by `fclose` and `remove(tmpname)`; an `fclose` failure (after a
complete write) is followed by `remove(tmpname)`; a `rename` failure
happens after `remove(filename)` and is followed by `remove(tmpname)`;
the successful run is `atomicSaveTraceOk`. -/
def atomicSaveTrace (tgt : Option (List Char)) (content : List Char)
    (fail : SaveStage) (written : Nat) : List FS :=
  match fail with
  | .atOpen => [⟨tgt, none⟩]
  | .atWrite =>
      [⟨tgt, none⟩, ⟨tgt, some []⟩, ⟨tgt, some (content.take written)⟩,
       ⟨tgt, some (content.take written)⟩, ⟨tgt, none⟩]
  | .atClose =>
      [⟨tgt, none⟩, ⟨tgt, some []⟩, ⟨tgt, some content⟩, ⟨tgt, some content⟩, ⟨tgt, none⟩]
  | .atRename =>
      [⟨tgt, none⟩, ⟨tgt, some []⟩, ⟨tgt, some content⟩, ⟨tgt, some content⟩,
       ⟨none, some content⟩, ⟨none, none⟩]
  | .ok => atomicSaveTraceOk tgt content

/-- Every trace starts at the initial file-system state. -/
theorem atomicSaveTrace_first (tgt : Option (List Char)) (content : List Char)
    (fail : SaveStage) (written : Nat) :
    (atomicSaveTrace tgt content fail written)[0]? = some ⟨tgt, none⟩ := by
  cases fail <;> rfl

/-- Every trace ends in the state `atomic_save_text` leaves behind. -/
theorem atomicSaveTrace_last (tgt : Option (List Char)) (content : List Char)
    (fail : SaveStage) (written : Nat) :
    (atomicSaveTrace tgt content fail written).getLast?
      = some (atomic_save_text ⟨tgt, none⟩ content fail).2 := by
  cases fail <;> rfl

/-- C2 as amended: during any execution of the atomic save — successful or
failing at any stage — every observed state of the target path is the
previous complete content, the new complete content, or absent; it is
never truncated or partially written.  Moreover the absence is localized:
the target still holds the previous content at every step before the
`remove(filename)` call (position 4, reached only in the rename-failure
and successful runs, after the temporary file was written and closed), a
successful run has the target absent only in the single window between
`remove` and `rename`, and a rename-failure run leaves the target absent
from the `remove` call to the end of the run. -/
theorem save_target_old_new_or_absent (tgt : Option (List Char)) (content : List Char)
    (fail : SaveStage) (written : Nat) :
    (∀ s ∈ atomicSaveTrace tgt content fail written,
       s.target = tgt ∨ s.target = some content ∨ s.target = none)
    ∧ (∀ (i : Nat) (s : FS), (atomicSaveTrace tgt content fail written)[i]? = some s →
         (i ≤ 3 → s.target = tgt)
         ∧ (s.target ≠ tgt → 4 ≤ i ∧ (fail = SaveStage.atRename ∨ fail = SaveStage.ok)))
    ∧ (fail = SaveStage.ok →
        ∀ (i : Nat) (s : FS), (atomicSaveTrace tgt content fail written)[i]? = some s →
          s.target = none → tgt = none ∨ i = 4)
    ∧ (fail = SaveStage.atRename →
        ∀ (i : Nat) (s : FS), (atomicSaveTrace tgt content fail written)[i]? = some s →
          s.target = none → tgt = none ∨ i = 4 ∨ i = 5) := by
  cases fail with
  | atOpen =>
    refine ⟨?_, ?_, ?_, ?_⟩
    · intro s hs
      simp only [atomicSaveTrace, List.mem_singleton] at hs
      subst hs; simp
    · intro i s h
      obtain ⟨hlt, hval⟩ := List.getElem?_eq_some.mp h
      simp only [atomicSaveTrace, List.length_cons, List.length_nil] at hlt
      interval_cases i
      simp only [atomicSaveTrace, List.getElem_cons_zero, List.getElem_cons_succ] at hval
      subst hval
      simp_all
    · intro h; simp at h
    · intro h; simp at h
  | atWrite =>
    refine ⟨?_, ?_, ?_, ?_⟩
    · intro s hs
      simp only [atomicSaveTrace, List.mem_cons, List.not_mem_nil, or_false] at hs
      rcases hs with h | h | h | h | h <;> subst h <;> simp
    · intro i s h
      obtain ⟨hlt, hval⟩ := List.getElem?_eq_some.mp h
      simp only [atomicSaveTrace, List.length_cons, List.length_nil] at hlt
      interval_cases i <;>
        (simp only [atomicSaveTrace, List.getElem_cons_zero, List.getElem_cons_succ] at hval
         subst hval
         simp_all)
    · intro h; simp at h
    · intro h; simp at h
  | atClose =>
    refine ⟨?_, ?_, ?_, ?_⟩
    · intro s hs
      simp only [atomicSaveTrace, List.mem_cons, List.not_mem_nil, or_false] at hs
      rcases hs with h | h | h | h | h <;> subst h <;> simp
    · intro i s h
      obtain ⟨hlt, hval⟩ := List.getElem?_eq_some.mp h
      simp only [atomicSaveTrace, List.length_cons, List.length_nil] at hlt
      interval_cases i <;>
        (simp only [atomicSaveTrace, List.getElem_cons_zero, List.getElem_cons_succ] at hval
         subst hval
         simp_all)
    · intro h; simp at h
    · intro h; simp at h
  | atRename =>
    refine ⟨?_, ?_, ?_, ?_⟩
    · intro s hs
      simp only [atomicSaveTrace, List.mem_cons, List.not_mem_nil, or_false] at hs
      rcases hs with h | h | h | h | h | h <;> subst h <;> simp
    · intro i s h
      obtain ⟨hlt, hval⟩ := List.getElem?_eq_some.mp h
      simp only [atomicSaveTrace, List.length_cons, List.length_nil] at hlt
      interval_cases i <;>
        (simp only [atomicSaveTrace, List.getElem_cons_zero, List.getElem_cons_succ] at hval
         subst hval
         simp_all)
    · intro h; simp at h
    · intro _ i s h htgt
      obtain ⟨hlt, hval⟩ := List.getElem?_eq_some.mp h
      simp only [atomicSaveTrace, List.length_cons, List.length_nil] at hlt
      interval_cases i <;>
        (simp only [atomicSaveTrace, List.getElem_cons_zero, List.getElem_cons_succ] at hval
         subst hval
         simp_all)
  | ok =>
    refine ⟨?_, ?_, ?_, ?_⟩
    · intro s hs
      simp only [atomicSaveTrace, atomicSaveTraceOk, List.mem_cons, List.not_mem_nil,
        or_false] at hs
      rcases hs with h | h | h | h | h | h <;> subst h <;> simp
    · intro i s h
      obtain ⟨hlt, hval⟩ := List.getElem?_eq_some.mp h
      simp only [atomicSaveTrace, atomicSaveTraceOk, List.length_cons, List.length_nil] at hlt
      interval_cases i <;>
        (simp only [atomicSaveTrace, atomicSaveTraceOk, List.getElem_cons_zero,
          List.getElem_cons_succ] at hval
         subst hval
         simp_all)
    · intro _ i s h htgt
      obtain ⟨hlt, hval⟩ := List.getElem?_eq_some.mp h
      simp only [atomicSaveTrace, atomicSaveTraceOk, List.length_cons, List.length_nil] at hlt
      interval_cases i <;>
        (simp only [atomicSaveTrace, atomicSaveTraceOk, List.getElem_cons_zero,
          List.getElem_cons_succ] at hval
         subst hval
         simp_all)
    · intro h; simp at h

/-- Witness for C2's amended theorem: the no-partial-content disjunction
at the remove-rename window state of a successful run, the success-run
localization at position 4, and the rename-failure localization at the
final state (position 5). -/
theorem save_target_witness :
    (FS.mk none (some "new".toList)
        ∈ atomicSaveTrace (some "old".toList) "new".toList SaveStage.ok 0
      ∧ ((FS.mk none (some "new".toList)).target = some "old".toList
          ∨ (FS.mk none (some "new".toList)).target = some "new".toList
          ∨ (FS.mk none (some "new".toList)).target = none))
    ∧ ((atomicSaveTrace (some "old".toList) "new".toList SaveStage.ok 0)[4]?
          = some (FS.mk none (some "new".toList))
      ∧ (some "old".toList = (none : Option (List Char)) ∨ 4 = 4))
    ∧ ((atomicSaveTrace (some "old".toList) "new".toList SaveStage.atRename 0)[5]?
          = some (FS.mk none none)
      ∧ (some "old".toList = (none : Option (List Char)) ∨ 5 = 4 ∨ 5 = 5)) :=
  ⟨⟨by decide,
    (save_target_old_new_or_absent (some "old".toList) "new".toList SaveStage.ok 0).1
      (FS.mk none (some "new".toList)) (by decide)⟩,
   ⟨by decide,
    (save_target_old_new_or_absent (some "old".toList) "new".toList SaveStage.ok 0).2.2.1
      rfl 4 (FS.mk none (some "new".toList)) (by decide) (by decide)⟩,
   ⟨by decide,
    (save_target_old_new_or_absent (some "old".toList) "new".toList SaveStage.atRename 0).2.2.2
      rfl 5 (FS.mk none none) (by decide) (by decide)⟩⟩

/-- C3 (refuted on the code): when the final `rename` fails after the
temporary file was written and closed, `atomic_save_text` reports failure
but its error branch calls `remove(tmpname)`
(library_improved_commented.c:263), deleting the temporary file — and the
target was already removed at line 259, so no file remains at either path.
The inline comment at line 261 claims the temporary file is kept, and the
claim repeats that; the code contradicts it. -/
theorem rename_failure_removes_temp :
    atomic_save_text ⟨some "old".toList, none⟩ "new".toList SaveStage.atRename
      = (false, ⟨none, none⟩)
    ∧ (atomic_save_text ⟨some "old".toList, none⟩ "new".toList SaveStage.atRename).2.temp
      = none := by
  decide

/-- C5: if the save fails at the open, write, or close stage of the
temporary file, `atomic_save_text` reports failure, no temporary file
remains, and the target file's content is exactly what it was before the
attempt. -/
theorem save_write_failure_preserves_target (tgt : Option (List Char)) (content : List Char)
    (fail : SaveStage)
    (h : fail = SaveStage.atOpen ∨ fail = SaveStage.atWrite ∨ fail = SaveStage.atClose) :
    atomic_save_text ⟨tgt, none⟩ content fail = (false, ⟨tgt, none⟩) := by
  rcases h with h | h | h <;> subst h <;> rfl

/-- Witness for C5 at a concrete write-stage failure. -/
theorem save_write_failure_witness :
    (SaveStage.atWrite = SaveStage.atOpen ∨ SaveStage.atWrite = SaveStage.atWrite
      ∨ SaveStage.atWrite = SaveStage.atClose)
    ∧ atomic_save_text ⟨some "old".toList, none⟩ "new".toList SaveStage.atWrite
        = (false, ⟨some "old".toList, none⟩) :=
  ⟨by decide,
   save_write_failure_preserves_target (some "old".toList) "new".toList SaveStage.atWrite
     (by decide)⟩

/-- Notebook document (notebook.c:18-24): the live lines, the owned file
name and the modified flag (the capacity bookkeeping is modelled
separately for the capacity claims). -/
structure Doc where
  lines : List (List Char)
  filename : Option (List Char)
  modified : Bool
deriving DecidableEq

/-- Model of `doc_append` (notebook.c:117-122): add the line at the end
and set the modified flag. -/
def doc_append (d : Doc) (line : List Char) : Doc :=
  ⟨d.lines ++ [line], d.filename, true⟩

/-- Model of `doc_clear` (notebook.c:145-151): free all lines, reset size
to 0, drop the file name, clear the modified flag. -/
def doc_clear (_ : Doc) : Doc := ⟨[], none, false⟩

/-- The read loop of `doc_load` (notebook.c:161-166) under failure
injection: `failAt = some k` makes the k-th `doc_append` call fail (its
capacity growth `realloc` returning NULL); the loop then returns 0 with
the document as mutated so far. -/
def doc_load_loop : Doc → List (List Char) → Option Nat → Bool × Doc
  | d, [], _ => (true, d)
  | d, _ :: _, some 0 => (false, d)
  | d, l :: t, some (k + 1) => doc_load_loop (doc_append d l) t (some k)
  | d, l :: t, none => doc_load_loop (doc_append d l) t none

/-- Model of `doc_load` (notebook.c:154-171): clear the modified flag;
`file = none` models an `fopen` failure (return 0, nothing else touched);
otherwise the document is cleared in place and the file's lines are
appended one by one; a mid-read append failure returns 0 with the document
as mutated so far; after a full read `xstrdup` of the file name can fail
(`strdupOk = false`: return 0 with the lines loaded but no file name), and
on success the modified flag is cleared again. -/
def doc_load (d : Doc) (fname : List Char) (file : Option (List (List Char)))
    (failAt : Option Nat) (strdupOk : Bool) : Bool × Doc :=
  let d1 : Doc := ⟨d.lines, d.filename, false⟩
  match file with
  | none => (false, d1)
  | some ls =>
    match doc_load_loop (doc_clear d1) ls failAt with
    | (false, d2) => (false, d2)
    | (true, d2) =>
      if strdupOk then (true, ⟨d2.lines, some fname, false⟩) else (false, d2)

theorem doc_load_loop_fail (ls : List (List Char)) :
    ∀ (d : Doc) (k : Nat), k < ls.length →
      doc_load_loop d ls (some k)
        = (false, ⟨d.lines ++ ls.take k, d.filename, if k = 0 then d.modified else true⟩) := by
  induction ls with
  | nil => intro d k hk; simp at hk
  | cons l t ih =>
    intro d k hk
    cases k with
    | zero => simp [doc_load_loop]
    | succ k' =>
      have hk' : k' < t.length := by simpa using hk
      simp only [doc_load_loop]
      rw [ih (doc_append d l) k' hk']
      simp [doc_append, List.append_assoc]

/-- C4 (refuted on the code, amended): `doc_load` does not build the new
store independently and swap it in.  If the open fails (`file = none`) the
prior lines and file name are kept (only the modified flag is reset), but
if an append fails partway through the read, the prior content has
already been cleared and the document holds exactly the lines read before
the failure, with no file name. -/
theorem doc_load_failure_behavior :
    (∀ (d : Doc) (fname : List Char) (failAt : Option Nat) (ok : Bool),
      doc_load d fname none failAt ok = (false, ⟨d.lines, d.filename, false⟩))
    ∧ (∀ (d : Doc) (fname : List Char) (ls : List (List Char)) (k : Nat) (ok : Bool),
        k < ls.length →
        doc_load d fname (some ls) (some k) ok
          = (false, ⟨ls.take k, none, if k = 0 then false else true⟩)) := by
  constructor
  · intro d fname failAt ok
    rfl
  · intro d fname ls k ok hk
    simp only [doc_load, doc_clear]
    rw [doc_load_loop_fail ls ⟨[], none, false⟩ k hk]
    simp

/-- Witness for C4's amended theorem at a concrete mid-read failure. -/
theorem doc_load_failure_witness :
    (1 < ([("X").toList, ("Y").toList] : List (List Char)).length)
    ∧ doc_load ⟨[("A").toList], some ("f").toList, false⟩ ("g").toList
        (some [("X").toList, ("Y").toList]) (some 1) true
      = (false, ⟨[("X").toList], none, true⟩) :=
  ⟨by decide,
   by
    have h := doc_load_failure_behavior.2 ⟨[("A").toList], some ("f").toList, false⟩
      ("g").toList [("X").toList, ("Y").toList] 1 true (by decide)
    simpa using h⟩

/-- Counterexample to C4 as stated: a failed load does not leave the
in-memory store in its prior state.  Loading `["X", "Y"]` over a document
holding `["A"]` with the second append failing reports failure and leaves
the document holding `["X"]`, not the prior `["A"]`. -/
theorem load_midfail_not_prior_state :
    (doc_load ⟨[("A").toList], some ("f").toList, false⟩ ("g").toList
        (some [("X").toList, ("Y").toList]) (some 1) true).1 = false
    ∧ (doc_load ⟨[("A").toList], some ("f").toList, false⟩ ("g").toList
        (some [("X").toList, ("Y").toList]) (some 1) true).2.lines = [("X").toList]
    ∧ (doc_load ⟨[("A").toList], some ("f").toList, false⟩ ("g").toList
        (some [("X").toList, ("Y").toList]) (some 1) true).2.lines ≠ [("A").toList] := by
  decide

/-- The compaction loop of `doc_delete` (notebook.c:139) and `delete_book`
(library_improved_commented.c:474): drop the element at the index and
shift every later element one position earlier. -/
def erase_shift {α : Type} : List α → Nat → List α
  | [], _ => []
  | _ :: t, 0 => t
  | h :: t, n + 1 => h :: erase_shift t n

/-- Model of `doc_delete` (notebook.c:135-143): out-of-range positions
report failure and leave the document unchanged; otherwise the line is
removed by the shift loop, the size decremented, and the modified flag
set. -/
def doc_delete (d : Doc) (pos : Nat) : Bool × Doc :=
  if d.lines.length ≤ pos then (false, d)
  else (true, ⟨erase_shift d.lines pos, d.filename, true⟩)

theorem erase_shift_length {α : Type} :
    ∀ (l : List α) (pos : Nat), pos < l.length → (erase_shift l pos).length = l.length - 1 := by
  intro l
  induction l with
  | nil => intro pos h; simp at h
  | cons x t ih =>
    intro pos h
    cases pos with
    | zero => simp [erase_shift]
    | succ p =>
      have hp : p < t.length := by simpa using h
      simp only [erase_shift, List.length_cons, ih p hp]
      omega

theorem erase_shift_get_lt {α : Type} :
    ∀ (l : List α) (pos j : Nat), j < pos → (erase_shift l pos)[j]? = l[j]? := by
  intro l
  induction l with
  | nil => intro pos j _; simp [erase_shift]
  | cons x t ih =>
    intro pos j hj
    cases pos with
    | zero => omega
    | succ p =>
      cases j with
      | zero => simp [erase_shift]
      | succ j' =>
        have : j' < p := by omega
        simp only [erase_shift, List.getElem?_cons_succ]
        exact ih p j' this

theorem erase_shift_get_ge {α : Type} :
    ∀ (l : List α) (pos j : Nat), pos ≤ j → (erase_shift l pos)[j]? = l[j + 1]? := by
  intro l
  induction l with
  | nil => intro pos j _; simp [erase_shift]
  | cons x t ih =>
    intro pos j hj
    cases pos with
    | zero => simp [erase_shift]
    | succ p =>
      cases j with
      | zero => omega
      | succ j' =>
        have : p ≤ j' := by omega
        simp only [erase_shift, List.getElem?_cons_succ]
        exact ih p j' this

/-- C8: for a position below the size, `doc_delete` reports success,
removes the element there, shifts each later element one position
earlier (so the relative order of the remaining elements is unchanged),
and decrements the size by one; for a position at or beyond the size it
reports failure and leaves the document unchanged. -/
theorem delete_at_index_spec (d : Doc) (pos : Nat) :
    (pos < d.lines.length →
      (doc_delete d pos).1 = true
      ∧ (doc_delete d pos).2.lines.length = d.lines.length - 1
      ∧ (∀ j, j < pos → (doc_delete d pos).2.lines[j]? = d.lines[j]?)
      ∧ (∀ j, pos ≤ j → (doc_delete d pos).2.lines[j]? = d.lines[j + 1]?))
    ∧ (d.lines.length ≤ pos → doc_delete d pos = (false, d)) := by
  constructor
  · intro h
    have hn : ¬ d.lines.length ≤ pos := by omega
    refine ⟨by simp [doc_delete, hn], ?_, ?_, ?_⟩
    · simp only [doc_delete, if_neg hn]
      exact erase_shift_length d.lines pos h
    · intro j hj
      simp only [doc_delete, if_neg hn]
      exact erase_shift_get_lt d.lines pos j hj
    · intro j hj
      simp only [doc_delete, if_neg hn]
      exact erase_shift_get_ge d.lines pos j hj
  · intro h
    simp [doc_delete, h]

/-- Witness for C8 at a concrete three-line document and position 1. -/
theorem delete_at_index_witness :
    (1 < ([("a").toList, ("b").toList, ("c").toList] : List (List Char)).length)
    ∧ (doc_delete ⟨[("a").toList, ("b").toList, ("c").toList], none, false⟩ 1).2.lines[1]?
        = [("a").toList, ("b").toList, ("c").toList][2]?
    ∧ (([("a").toList, ("b").toList, ("c").toList] : List (List Char)).length ≤ 5)
    ∧ doc_delete ⟨[("a").toList, ("b").toList, ("c").toList], none, false⟩ 5
        = (false, ⟨[("a").toList, ("b").toList, ("c").toList], none, false⟩) :=
  ⟨by decide,
   ((delete_at_index_spec ⟨[("a").toList, ("b").toList, ("c").toList], none, false⟩ 1).1
     (by decide)).2.2.2 1 (by decide),
   by decide,
   (delete_at_index_spec ⟨[("a").toList, ("b").toList, ("c").toList], none, false⟩ 5).2
     (by decide)⟩

/-- Size/capacity bookkeeping of a growable array (the element moves are
irrelevant to the capacity claims). -/
structure ArrState where
  size : Nat
  cap : Nat
deriving DecidableEq

/-- Model of `ensure_books_capacity` (library_improved_commented.c:162-170):
a zero capacity becomes the initial 32; a full array doubles its capacity;
otherwise nothing changes.  `ensure_records_capacity` is identical. -/
def ensure_books_capacity (s : ArrState) : ArrState :=
  if s.cap = 0 then ⟨s.size, 32⟩
  else if s.cap ≤ s.size then ⟨s.size, 2 * s.cap⟩
  else s

/-- One append to the books array: `ensure_books_capacity();
books[books_count++] = b;`. -/
def books_append (s : ArrState) : ArrState :=
  let s2 := ensure_books_capacity s
  ⟨s2.size + 1, s2.cap⟩

/-- State of the books array after n appends from the initial empty state
(`books_count = 0`, `books_capacity = 0`, library_improved_commented.c:66-67). -/
def books_appendN : Nat → ArrState
  | 0 => ⟨0, 0⟩
  | n + 1 => books_append (books_appendN n)

/-- The `while (newcap < need) newcap *= 2;` loop of `doc_ensure_capacity`
(notebook.c:109), with fuel (the C loop would not terminate from a zero
capacity, which `doc_new` rules out). -/
def growCap : Nat → Nat → Nat → Nat
  | 0, cap, _ => cap
  | f + 1, cap, need => if cap < need then growCap f (2 * cap) need else cap

/-- Model of `doc_ensure_capacity` (notebook.c:104-115). -/
def doc_ensure_capacity (s : ArrState) (need : Nat) : ArrState :=
  if need ≤ s.cap then s else ⟨s.size, growCap need s.cap need⟩

/-- One append to the notebook document (notebook.c:117-122):
`doc_ensure_capacity(d, d->size + 1); d->lines[d->size++] = line;`. -/
def doc_append_state (s : ArrState) : ArrState :=
  let s2 := doc_ensure_capacity s (s.size + 1)
  ⟨s2.size + 1, s2.cap⟩

/-- State of the document's line array after n appends from a fresh
`doc_new` document (`size = 0`, `capacity = INITIAL_CAPACITY = 128`,
notebook.c:78-89). -/
def doc_appendN : Nat → ArrState
  | 0 => ⟨0, 128⟩
  | n + 1 => doc_append_state (doc_appendN n)

theorem growCap_one_doubling (cap : Nat) (h : 1 ≤ cap) :
    growCap (cap + 1) cap (cap + 1) = 2 * cap := by
  cases cap with
  | zero => omega
  | succ c =>
    simp only [growCap, if_pos (by omega : c + 1 < c + 1 + 1)]
    cases c with
    | zero => simp [growCap]
    | succ c' =>
      have : ¬ 2 * (c' + 1 + 1) < c' + 1 + 1 + 1 := by omega
      simp only [growCap, if_neg this]

theorem books_appendN_inv (n : Nat) :
    (books_appendN n).size = n
    ∧ (books_appendN n).size ≤ (books_appendN n).cap
    ∧ ((books_appendN n).cap = 0 ∨ 32 ≤ (books_appendN n).cap)
    ∧ ((books_appendN n).cap = 0 → n = 0) := by
  induction n with
  | zero => simp [books_appendN]
  | succ n ih =>
    obtain ⟨h1, h2, h3, h4⟩ := ih
    simp only [books_appendN, books_append, ensure_books_capacity]
    by_cases hc : (books_appendN n).cap = 0
    · simp only [if_pos hc]
      refine ⟨by omega, by omega, by omega, by omega⟩
    · simp only [if_neg hc]
      by_cases hf : (books_appendN n).cap ≤ (books_appendN n).size
      · simp only [if_pos hf]
        refine ⟨by omega, by omega, by omega, by omega⟩
      · simp only [if_neg hf]
        refine ⟨by omega, by omega, by omega, by omega⟩

theorem doc_appendN_inv (n : Nat) :
    (doc_appendN n).size = n
    ∧ (doc_appendN n).size ≤ (doc_appendN n).cap
    ∧ 128 ≤ (doc_appendN n).cap := by
  induction n with
  | zero => simp [doc_appendN]
  | succ n ih =>
    obtain ⟨h1, h2, h3⟩ := ih
    simp only [doc_appendN, doc_append_state, doc_ensure_capacity]
    by_cases hf : (doc_appendN n).size + 1 ≤ (doc_appendN n).cap
    · simp only [if_pos hf]
      refine ⟨by omega, by omega, by omega⟩
    · have hsz : (doc_appendN n).size = (doc_appendN n).cap := by omega
      simp only [if_neg hf]
      rw [hsz, growCap_one_doubling (doc_appendN n).cap (by omega)]
      refine ⟨by omega, by omega, by omega⟩

/-- C7: after each of n appends from the empty store the size equals the
number of appends and never exceeds the capacity; the books array's
capacity is first set to 32 on the first append (and the fresh notebook
document is created with capacity 128); on every append the capacity
doubles exactly when the size had reached the capacity immediately before
(for the books array, after the initial 0 -> 32 step) and never shrinks. -/
theorem append_capacity_invariants (n : Nat) :
    (books_appendN n).size = n
    ∧ (books_appendN n).size ≤ (books_appendN n).cap
    ∧ (books_appendN 1).cap = 32
    ∧ (books_appendN (n + 1)).cap
        = (if (books_appendN n).cap = 0 then 32
           else if (books_appendN n).size = (books_appendN n).cap then
             2 * (books_appendN n).cap
           else (books_appendN n).cap)
    ∧ (books_appendN n).cap ≤ (books_appendN (n + 1)).cap
    ∧ (doc_appendN n).size = n
    ∧ (doc_appendN n).size ≤ (doc_appendN n).cap
    ∧ (doc_appendN 0).cap = 128
    ∧ (doc_appendN (n + 1)).cap
        = (if (doc_appendN n).size = (doc_appendN n).cap then 2 * (doc_appendN n).cap
           else (doc_appendN n).cap)
    ∧ (doc_appendN n).cap ≤ (doc_appendN (n + 1)).cap := by
  obtain ⟨hb1, hb2, hb3, hb4⟩ := books_appendN_inv n
  obtain ⟨hd1, hd2, hd3⟩ := doc_appendN_inv n
  refine ⟨hb1, hb2, by decide, ?_, ?_, hd1, hd2, by decide, ?_, ?_⟩
  · simp only [books_appendN, books_append, ensure_books_capacity]
    by_cases hc : (books_appendN n).cap = 0
    · simp [hc]
    · by_cases he : (books_appendN n).size = (books_appendN n).cap
      · have hf : (books_appendN n).cap ≤ (books_appendN n).size := by omega
        simp [hc, he, hf]
      · have hf : ¬ (books_appendN n).cap ≤ (books_appendN n).size := by omega
        simp [hc, he, hf]
  · simp only [books_appendN, books_append, ensure_books_capacity]
    by_cases hc : (books_appendN n).cap = 0
    · simp [hc]
    · by_cases hf : (books_appendN n).cap ≤ (books_appendN n).size
      · simp only [if_neg hc, if_pos hf]
        omega
      · simp only [if_neg hc, if_neg hf]
        omega
  · simp only [doc_appendN, doc_append_state, doc_ensure_capacity]
    by_cases hf : (doc_appendN n).size + 1 ≤ (doc_appendN n).cap
    · have he : ¬ (doc_appendN n).size = (doc_appendN n).cap := by omega
      simp [hf, he]
    · have he : (doc_appendN n).size = (doc_appendN n).cap := by omega
      have hgrow : growCap ((doc_appendN n).cap + 1) (doc_appendN n).cap
          ((doc_appendN n).cap + 1) = 2 * (doc_appendN n).cap :=
        growCap_one_doubling _ (by omega)
      simp [hf, he, hgrow]
  · simp only [doc_appendN, doc_append_state, doc_ensure_capacity]
    by_cases hf : (doc_appendN n).size + 1 ≤ (doc_appendN n).cap
    · simp [hf]
    · have he : (doc_appendN n).size = (doc_appendN n).cap := by omega
      have hgrow : growCap ((doc_appendN n).cap + 1) (doc_appendN n).cap
          ((doc_appendN n).cap + 1) = 2 * (doc_appendN n).cap :=
        growCap_one_doubling _ (by omega)
      simp [hf, he, hgrow]
      omega
